import Mathlib

set_option autoImplicit false

/-!
Verification of the accent color-selection pipeline (src/accent.js).

The development shallowly embeds the algorithmic core of `accent.js`:
the candidate analyzer, the base-color statistics pass, the Round-1
space sampler, the distance filter, the consolidator and the cache.
Color math (Lab conversion, Delta E 2000, luma, WCAG contrast) is an
external adapter in the program (the `delta-e`, `spectra` and
`wcag-contrast` packages); it is modelled as a structure of abstract
rational-valued functions, exactly as the spec's §6 treats it.  The JS
`toLab` conversion is a pure pre-composition in every call site, so the
adapter's `deltaE` field takes the two colors directly.
-/

/-- A color, identified by its 24-bit RGB integer (`color.rgbNumber()` in
the source).  Sample positions computed by the Round-1 walk are plain
integer arithmetic on this value, so the field is an integer. -/
structure Color where
  rgb : ℤ
  deriving DecidableEq, Repr

/-- The external color-math adapter (spec §6): perceptual distance
(Delta E 2000 on the Lab views of the two colors), luma and WCAG
contrast ratio.  All values are modelled as rationals. -/
structure ColorMath where
  deltaE : Color → Color → ℚ
  luma : Color → ℚ
  contrast : Color → Color → ℚ

/-- `Spectra('#000000')` of the source. -/
def blackColor : Color := ⟨0⟩

/-- `Spectra('#ffffff')` of the source. -/
def whiteColor : Color := ⟨0xffffff⟩

/-- Insertion step of an ascending sort of rationals, used to model the
value sort inside `math.median`. -/
def insertLe (x : ℚ) : List ℚ → List ℚ
  | [] => [x]
  | y :: ys => if x ≤ y then x :: y :: ys else y :: insertLe x ys

/-- Ascending sort of rationals (insertion sort; `math.median` only
depends on the sorted order of the values). -/
def sortQ (l : List ℚ) : List ℚ := l.foldr insertLe []

/-- `math.median`: the middle value of the sorted list for odd length,
the mean of the two middle values for even length.  `math.median` of an
empty list throws in the program; the model returns 0 there, and every
claim that uses a median supplies a non-empty list. -/
def median (l : List ℚ) : ℚ :=
  let s := sortQ l
  let n := s.length
  if n = 0 then 0
  else if n % 2 = 1 then s.getD (n / 2) 0
  else (s.getD (n / 2 - 1) 0 + s.getD (n / 2) 0) / 2

/-- `math.min` over a list (throws on empty in the program; 0 default). -/
def listMin : List ℚ → ℚ
  | [] => 0
  | x :: xs => xs.foldl min x

/-- `math.max` over a list (throws on empty in the program; 0 default). -/
def listMax : List ℚ → ℚ
  | [] => 0
  | x :: xs => xs.foldl max x

/-- `rgbNumberToHex` of the source: base-16 rendering padded with
leading zeros to six digits, prefixed with a hash sign. -/
def rgbNumberToHex (rgbNumber : Nat) : String :=
  let hex := Nat.toDigits 16 rgbNumber
  let padded := List.replicate (6 - hex.length) '0' ++ hex
  "#" ++ String.mk padded

/-- The optional reference argument of `between` in the source: a
reference value and a percentage margin. -/
structure RefMargin where
  value : ℚ
  margin : ℚ

/-- `between(value, minimum, maximum, ref)` of the source.  Without a
reference the bounds are the given minimum and maximum; with one they
are `value ± value*margin/100`, clamped to the given absolute bounds.
The final comparison is strict on both sides: `(value > low) && (value < high)`. -/
def between (value minimum maximum : ℚ) (ref : Option RefMargin) : Bool :=
  let lh : ℚ × ℚ :=
    match ref with
    | none => (minimum, maximum)
    | some r =>
        let margin := r.margin / 100
        let low0 := r.value - r.value * margin
        let low := if low0 < minimum then minimum else low0
        let high0 := r.value + r.value * margin
        let high := if high0 > maximum then maximum else high0
        (low, high)
  decide (value > lh.1) && decide (value < lh.2)

/-- The run-scoped statistics the analyzer reads: the running minima of
the Delta E distances to white and black and the running minimum and
maximum luma, computed from the base colors before any round. -/
structure Stats where
  refMinWhiteDeltaE : ℚ
  refMinBlackDeltaE : ℚ
  refMinLuma : ℚ
  refMaxLuma : ℚ

/-- `analyze(rgbNumber)` of the source: build the color from its RGB
number, then five short-circuiting band checks in order — contrast
against white, contrast against black, Delta E to white, Delta E to
black, luma — returning the color only when all pass and `undefined`
(here `none`) otherwise. -/
def analyze (cm : ColorMath) (st : Stats) (rgbNumber : ℤ) : Option Color :=
  let color : Color := ⟨rgbNumber⟩
  if !(between (cm.contrast color whiteColor) 3 21 none) then none
  else if !(between (cm.contrast color blackColor) 3 21 none) then none
  else if !(between (cm.deltaE color whiteColor) st.refMinWhiteDeltaE 100 none) then none
  else if !(between (cm.deltaE color blackColor) st.refMinBlackDeltaE 100 none) then none
  else if !(between (cm.luma color) st.refMinLuma st.refMaxLuma none) then none
  else some color

/-- `refDeltaE` of the source: the median over the base colors of the
median Delta E from each base color to every base color. -/
def refDeltaEStat (cm : ColorMath) (baseColors : List Color) : ℚ :=
  median (baseColors.map fun color =>
    median (baseColors.map fun baseColor => cm.deltaE color baseColor))

/-- `hasGoodDeltaAll(color, arr, threshold)` of the source: true when no
color of `arr` is closer than the effective cutoff.  The JS expression
`threshold || refDeltaE` makes a zero (falsy) threshold fall back to the
global `refDeltaE`; the model writes that as an explicit zero test. -/
def hasGoodDeltaAll (cm : ColorMath) (refDeltaE : ℚ) (color : Color)
    (arr : List Color) (threshold : ℚ) : Bool :=
  !(arr.any fun otherColor =>
    cm.deltaE color otherColor < (if threshold = 0 then refDeltaE else threshold))

/-- `tooClose(currentRGBNumber, barrierColor)` of the source: the Delta E
between the color built from the RGB number and the barrier color is
below 2. -/
def tooClose (cm : ColorMath) (currentRGBNumber : ℤ) (barrierColor : Color) : Bool :=
  decide (cm.deltaE ⟨currentRGBNumber⟩ barrierColor < 2)

/-- JavaScript `Math.round`: the floor of the argument plus one half
(halves round up). -/
def jsRound (q : ℚ) : ℤ := ⌊q + 1 / 2⌋

/-- The `samples` bound of a Round-1 pair in `runAnalyzer`:
`Math.round((end.rgbNumber() - start.rgbNumber()) / 2)`. -/
def samplesFor (start e : Color) : ℤ := jsRound ((e.rgb - start.rgb : ℤ) / 2)

/-- The Round-1 sampled midpoint of a pair in `runAnalyzer`:
`start.rgbNumber() + samples`. -/
def middleFor (start e : Color) : ℤ := start.rgb + samplesFor start e

/-- The offsets the Round-1 inner loop of `runAnalyzer` reaches: starting
at `j`, while the fuel (the remaining loop iterations, `samples - j` at
entry) lasts, stop as soon as `middle - j` is too close to `start`,
otherwise emit `j` and continue with `j + 1`. -/
def expandOffsets (cm : ColorMath) (middle : ℤ) (start : Color) : ℕ → ℕ → List ℕ
  | _, 0 => []
  | j, fuel + 1 =>
      if tooClose cm (middle - (j : ℤ)) start then []
      else j :: expandOffsets cm middle start (j + 1) fuel

/-- The RGB numbers one Round-1 pair submits to `analyze`, in program
order: the midpoint first, then for each reached offset `j` the upper
sample `middle + j` followed by the lower sample `middle - j`. -/
def pairSamples (cm : ColorMath) (start e : Color) : List ℤ :=
  let samples := samplesFor start e
  let middle := middleFor start e
  middle :: (expandOffsets cm middle start 1 (samples - 1).toNat).flatMap
    (fun j => [middle + (j : ℤ), middle - (j : ℤ)])

/-- The hex-string guard of the statistics pass in `process`: the update
callback runs only when `color.hex()` is neither `'#000000'` nor
`'#ffffff'`. -/
def isBlackOrWhiteHex (c : Color) : Bool :=
  rgbNumberToHex c.rgb.toNat = "#000000" || rgbNumberToHex c.rgb.toNat = "#ffffff"

/-- The running-minimum accumulation of the statistics pass: for each
base color in order, skip it when its hex is black or white, otherwise
replace the accumulator when the measured value is smaller. -/
def runningMin (measure : Color → ℚ) : ℚ → List Color → ℚ
  | acc, [] => acc
  | acc, c :: cs =>
      runningMin measure
        (if isBlackOrWhiteHex c then acc
         else if measure c < acc then measure c else acc) cs

/-- The running-maximum accumulation of the statistics pass (the luma
pass also tracks a maximum), with the same black/white skip. -/
def runningMax (measure : Color → ℚ) : ℚ → List Color → ℚ
  | acc, [] => acc
  | acc, c :: cs =>
      runningMax measure
        (if isBlackOrWhiteHex c then acc
         else if acc < measure c then measure c else acc) cs

/-- `refMinBlackDeltaE` of the source: running minimum of the Delta E to
black over the base colors, from the initial value 100. -/
def refMinBlackDeltaE (cm : ColorMath) (baseColors : List Color) : ℚ :=
  runningMin (fun color => cm.deltaE color blackColor) 100 baseColors

/-- `refMinWhiteDeltaE` of the source: running minimum of the Delta E to
white over the base colors, from the initial value 100. -/
def refMinWhiteDeltaE (cm : ColorMath) (baseColors : List Color) : ℚ :=
  runningMin (fun color => cm.deltaE color whiteColor) 100 baseColors

/-- `refMinLuma` of the source: running minimum of the luma over the
base colors, from the initial value 255. -/
def refMinLuma (cm : ColorMath) (baseColors : List Color) : ℚ :=
  runningMin cm.luma 255 baseColors

/-- `refMaxLuma` of the source: running maximum of the luma over the
base colors, from the initial value 0. -/
def refMaxLuma (cm : ColorMath) (baseColors : List Color) : ℚ :=
  runningMax cm.luma 0 baseColors

/-- `adjustDelta(source, ref)` of the source: the median over the source
colors of the minimum Delta E from each source color to the reference
colors. -/
def adjustDelta (cm : ColorMath) (source ref : List Color) : ℚ :=
  median (source.map fun color =>
    listMin (ref.map fun refColor => cm.deltaE color refColor))

/-- The grouping loop of `consolidate`: the loop index advances by two,
so each iteration appends `arr[i]` to the running group, breaks when
`arr[i+1]` is absent, and otherwise closes the running group exactly
when the Delta E of the checked pair `(arr[i], arr[i+1])` exceeds the
threshold, then appends `arr[i+1]` to the (possibly fresh) running
group.  The first component is the list of closed groups in order; the
second is the running group left open when the loop ends, which the
program discards. -/
def groupColors (cm : ColorMath) (refDelta : ℚ) :
    List Color → List Color → List (List Color) × List Color
  | group, [] => ([], group)
  | group, [color] => ([], group ++ [color])
  | group, color :: nextColor :: rest =>
      let g := group ++ [color]
      if refDelta < cm.deltaE color nextColor then
        let r := groupColors cm refDelta [nextColor] rest
        (g :: r.1, r.2)
      else
        groupColors cm refDelta (g ++ [nextColor]) rest

/-- The representative selection of `consolidate`: for each group member
the median Delta E to the reference colors, then the member at the first
index of the maximum such median (`group[deltas.indexOf(math.max(deltas))]`). -/
def representative (cm : ColorMath) (ref : List Color) (group : List Color) : Color :=
  let deltas := group.map fun color =>
    median (ref.map fun c => cm.deltaE color c)
  group.getD (deltas.indexOf (listMax deltas)) ⟨0⟩

/-- Insertion step of an ascending sort of colors by RGB number. -/
def insertColorLe (c : Color) : List Color → List Color
  | [] => [c]
  | d :: ds => if c.rgb ≤ d.rgb then c :: d :: ds else d :: insertColorLe c ds

/-- Ascending sort of colors by RGB number. -/
def sortByRgb (l : List Color) : List Color := l.foldr insertColorLe []

/-- `consolidate(arr, ref, refDelta)` of the source.  The program's
first step is `arr.sort()`: JavaScript's default comparator over the
external Spectra color objects, whose order depends on the library's
string conversion and is therefore a parameter `sortFn` here.  The
sorted list is grouped by `groupColors` and each closed group is mapped
to its representative; the final open group contributes nothing. -/
def consolidate (cm : ColorMath) (sortFn : List Color → List Color)
    (arr ref : List Color) (refDelta : ℚ) : List Color :=
  ((groupColors cm refDelta [] (sortFn arr)).1).map (representative cm ref)

/-- A cache artifact entry: the serialized form of one color, holding a
`color` field (spec §6: a JSON object with at least a `color` field
sufficient to reconstruct the Color). -/
structure CacheEntry where
  color : String
  deriving DecidableEq

/-- The pieces of the external Spectra library `memoize` relies on:
rendering a color to its hex code, rebuilding a color from a string
(`Spectra(loaded[i]['color'])`), and the JSON serialization of a color
object (`JSON.stringify`). -/
structure SpectraLib where
  hex : Color → String
  ofString : String → Color
  serialize : Color → CacheEntry

/-- The filesystem as `memoize` sees it: a map from cache paths to
parsed cache artifacts. -/
def FileStore := List (String × List CacheEntry)

/-- The cache path `'./cache-' + id + '.json'` of `memoize`. -/
def cachePath (id : String) : String := "./cache-" ++ id ++ ".json"

/-- `memoize(id, callback, args)` of the source: when the cache file for
`id` exists, rebuild each stored entry with `Spectra(entry['color'])`
and return those colors without calling the callback; otherwise run the
callback, write its serialized result to the cache file and return it. -/
def memoize (lib : SpectraLib) (fs : FileStore) (id : String)
    (callback : Unit → List Color) : List Color × FileStore :=
  match List.lookup (cachePath id) fs with
  | some loaded => ((loaded.map fun entry => lib.ofString entry.color), fs)
  | none =>
      let result := callback ()
      (result, (cachePath id, result.map lib.serialize) :: fs)

/-! ## Spec-side definitions

Definitions written from the spec's words, for comparison with the
embedded source functions. -/

/-- Follows the spec's words for the adaptive threshold: the median over
the source colors of the nearest-neighbour Delta E distance from each
source color to the reference set. -/
def nearestNeighborMedian (cm : ColorMath) (source ref : List Color) : ℚ :=
  median (source.map fun s => listMin (ref.map fun r => cm.deltaE s r))

/-- Follows the claim's words for the analyzer: the same five checks in
the same order, but with closed acceptance intervals — a boundary value
such as a contrast ratio of exactly 3 or exactly 21 passes. -/
def analyzeClosed (cm : ColorMath) (st : Stats) (rgbNumber : ℤ) : Option Color :=
  let color : Color := ⟨rgbNumber⟩
  if 3 ≤ cm.contrast color whiteColor ∧ cm.contrast color whiteColor ≤ 21 ∧
      3 ≤ cm.contrast color blackColor ∧ cm.contrast color blackColor ≤ 21 ∧
      st.refMinWhiteDeltaE ≤ cm.deltaE color whiteColor ∧ cm.deltaE color whiteColor ≤ 100 ∧
      st.refMinBlackDeltaE ≤ cm.deltaE color blackColor ∧ cm.deltaE color blackColor ≤ 100 ∧
      st.refMinLuma ≤ cm.luma color ∧ cm.luma color ≤ st.refMaxLuma then
    some color
  else none

/-- Follows the claim's words for the Round-1 midpoint:
`start + floor((end - start) / 2)`. -/
def claimMidpoint (start e : Color) : ℤ :=
  start.rgb + ⌊((e.rgb - start.rgb : ℤ) : ℚ) / 2⌋

/-! ## Concrete adapter instances

Used only to evaluate the embedded functions at concrete inputs in
counterexamples and witnesses. -/

/-- A concrete color-math adapter: the Delta E of two colors is the
absolute difference of their RGB numbers, luma is the RGB number, and
every contrast ratio is 10. -/
def cmAbs : ColorMath where
  deltaE a b := |((a.rgb - b.rgb : ℤ) : ℚ)|
  luma c := (c.rgb : ℚ)
  contrast _ _ := 10

/-- A concrete color-math adapter whose contrast ratio against white is
exactly 3 — the boundary of the analyzer's first acceptance band — and
whose other measures sit strictly inside every band of `stBoundary`. -/
def cmBoundary : ColorMath where
  deltaE _ _ := 50
  luma _ := 50
  contrast _ b := if b.rgb = 0xffffff then 3 else 10

/-- Statistics putting 50-valued measures strictly inside every band. -/
def stBoundary : Stats where
  refMinWhiteDeltaE := 10
  refMinBlackDeltaE := 10
  refMinLuma := 10
  refMaxLuma := 100

/-- A concrete Spectra-library instance satisfying the §6 serialization
contract on the colors it is used with: the hex view is
`rgbNumberToHex`, serialization stores the hex code in the `color`
field, and rebuilding recognizes the hex code of the RGB number 3. -/
def lib0 : SpectraLib where
  hex c := rgbNumberToHex c.rgb.toNat
  ofString s := if s = rgbNumberToHex 3 then ⟨3⟩ else ⟨0⟩
  serialize c := ⟨rgbNumberToHex c.rgb.toNat⟩

/-! ## Helper lemmas -/

theorem foldl_max_mem (a : ℚ) : ∀ xs : List ℚ, xs.foldl max a ∈ a :: xs
  | [] => by simp
  | x :: xs => by
      have h := foldl_max_mem (max a x) xs
      rcases List.mem_cons.mp h with h1 | h1
      · rcases max_choice a x with h2 | h2 <;> rw [List.foldl_cons, h1, h2] <;> simp
      · rw [List.foldl_cons]
        exact List.mem_cons_of_mem _ (List.mem_cons_of_mem _ h1)

theorem listMax_mem {l : List ℚ} (h : l ≠ []) : listMax l ∈ l := by
  cases l with
  | nil => exact absurd rfl h
  | cons x xs => exact foldl_max_mem x xs

/-- The chosen representative of a non-empty group is one of its
members: the maximum of the medians occurs in the list of medians, its
first index is below the group's length, and indexing there lands in the
group. -/
theorem representative_mem (cm : ColorMath) (ref : List Color) {group : List Color}
    (h : group ≠ []) : representative cm ref group ∈ group := by
  unfold representative
  set deltas := group.map (fun color => median (ref.map fun c => cm.deltaE color c)) with hd
  have hne : deltas ≠ [] := by
    simp only [hd, ne_eq, List.map_eq_nil_iff]
    exact h
  have hmem : listMax deltas ∈ deltas := listMax_mem hne
  have hlt : deltas.indexOf (listMax deltas) < deltas.length :=
    List.indexOf_lt_length.mpr hmem
  have hlt2 : deltas.indexOf (listMax deltas) < group.length := by
    simpa only [hd, List.length_map] using hlt
  rw [List.getD_eq_getElem _ _ hlt2]
  exact List.getElem_mem hlt2

/-- The closed groups followed by the final open group spell out the
accumulator followed by the walked list: grouping partitions `acc ++ l`,
and in particular the closed groups cover only a prefix of the input. -/
theorem groupColors_flatten (cm : ColorMath) (t : ℚ) :
    ∀ (l acc : List Color),
      ((groupColors cm t acc l).1).flatten ++ (groupColors cm t acc l).2 = acc ++ l
  | [], acc => by simp [groupColors]
  | [c], acc => by simp [groupColors]
  | c :: d :: rest, acc => by
      by_cases h : t < cm.deltaE c d
      · have ih := groupColors_flatten cm t rest [d]
        simp only [groupColors, if_pos h, List.flatten_cons, List.append_assoc, ih]
        simp
      · have ih := groupColors_flatten cm t rest (acc ++ [c] ++ [d])
        simp only [groupColors, if_neg h, ih]
        simp

/-- Every closed group the grouping loop emits is non-empty (it ends
with the first color of the checked pair that closed it). -/
theorem groupColors_groups_ne_nil (cm : ColorMath) (t : ℚ) :
    ∀ (l acc g : List Color), g ∈ (groupColors cm t acc l).1 → g ≠ []
  | [], acc, g => by simp [groupColors]
  | [c], acc, g => by simp [groupColors]
  | c :: d :: rest, acc, g => by
      by_cases h : t < cm.deltaE c d
      · simp only [groupColors, if_pos h, List.mem_cons]
        rintro (rfl | hg)
        · simp
        · exact groupColors_groups_ne_nil cm t rest [d] g hg
      · simp only [groupColors, if_neg h]
        exact groupColors_groups_ne_nil cm t rest (acc ++ [c] ++ [d]) g

/-- The final open group is empty only when both the accumulator and the
walked list are empty: on any non-empty input some colors are left in
the open group and dropped. -/
theorem groupColors_open_eq_nil (cm : ColorMath) (t : ℚ) :
    ∀ (l acc : List Color), (groupColors cm t acc l).2 = [] → acc = [] ∧ l = []
  | [], acc => by simp [groupColors]
  | [c], acc => by simp [groupColors]
  | c :: d :: rest, acc => by
      by_cases h : t < cm.deltaE c d
      · simp only [groupColors, if_pos h]
        intro h2
        rcases groupColors_open_eq_nil cm t rest [d] h2 with ⟨h3, _⟩
        exact absurd h3 (by simp)
      · simp only [groupColors, if_neg h]
        intro h2
        rcases groupColors_open_eq_nil cm t rest (acc ++ [c] ++ [d]) h2 with ⟨h3, _⟩
        exact absurd h3 (by simp)

/-- When every pair of distinct colors of the walked list is farther
apart than the threshold, the loop closes a group at every checked pair:
it emits exactly `⌊length / 2⌋` closed groups (the grouping runs
`[a0]`, `[a1, a2]`, `[a3, a4]`, …, and the trailing open group is
dropped). -/
theorem groupColors_length_pairwise (cm : ColorMath) (t : ℚ) :
    ∀ (l acc : List Color), l.Pairwise (fun a b => t < cm.deltaE a b) →
      ((groupColors cm t acc l).1).length = l.length / 2
  | [], acc, _ => by simp [groupColors]
  | [c], acc, _ => by simp [groupColors]
  | c :: d :: rest, acc, h => by
      have h1 : t < cm.deltaE c d := by
        have := (List.pairwise_cons.mp h).1
        exact this d (by simp)
      have hrest : rest.Pairwise (fun a b => t < cm.deltaE a b) :=
        (List.pairwise_cons.mp (List.pairwise_cons.mp h).2).2
      have ih := groupColors_length_pairwise cm t rest [d] hrest
      simp only [groupColors, if_pos h1, List.length_cons, ih, List.length_cons]
      omega

/-- The running minimum of the statistics pass is the fold of `min` from
the initial value over the measures of the base colors whose hex is
neither black nor white. -/
theorem runningMin_eq_foldl (measure : Color → ℚ) :
    ∀ (l : List Color) (init : ℚ),
      runningMin measure init l =
        ((l.filter fun c => !isBlackOrWhiteHex c).map measure).foldl min init
  | [], init => rfl
  | c :: cs, init => by
      by_cases h : isBlackOrWhiteHex c
      · simp [runningMin, h, runningMin_eq_foldl measure cs init, List.filter_cons]
      · have hmin : (if measure c < init then measure c else init) = min init (measure c) := by
          rw [min_def]
          split_ifs <;> first | rfl | linarith
        simp [runningMin, h, hmin, runningMin_eq_foldl measure cs, List.filter_cons]

/-- The running maximum of the statistics pass is the fold of `max` from
the initial value over the measures of the base colors whose hex is
neither black nor white. -/
theorem runningMax_eq_foldl (measure : Color → ℚ) :
    ∀ (l : List Color) (init : ℚ),
      runningMax measure init l =
        ((l.filter fun c => !isBlackOrWhiteHex c).map measure).foldl max init
  | [], init => rfl
  | c :: cs, init => by
      by_cases h : isBlackOrWhiteHex c
      · simp [runningMax, h, runningMax_eq_foldl measure cs init, List.filter_cons]
      · have hmax : (if init < measure c then measure c else init) = max init (measure c) := by
          rw [max_def]
          split_ifs <;> first | rfl | linarith
        simp [runningMax, h, hmax, runningMax_eq_foldl measure cs, List.filter_cons]

/-- Membership in the expansion-offset list: an offset is reached
exactly when it lies between the starting offset and the loop bound and
no offset up to it (the stop condition is checked before the offset is
used) put `middle - i` too close to the lower barrier. -/
theorem expandOffsets_mem_iff (cm : ColorMath) (middle : ℤ) (start : Color) :
    ∀ (fuel j0 k : ℕ),
      k ∈ expandOffsets cm middle start j0 fuel ↔
        (j0 ≤ k ∧ k < j0 + fuel ∧
          ∀ i : ℕ, j0 ≤ i → i ≤ k → tooClose cm (middle - (i : ℤ)) start = false)
  | 0, j0, k => by
      simp only [expandOffsets, List.not_mem_nil, false_iff]
      intro h
      omega
  | fuel + 1, j0, k => by
      cases h : tooClose cm (middle - (j0 : ℤ)) start with
      | true =>
          simp only [expandOffsets, h, if_pos, List.not_mem_nil, false_iff]
          rintro ⟨h1, _, h3⟩
          have := h3 j0 le_rfl h1
          rw [this] at h
          exact Bool.true_eq_false.mp h.symm
      | false =>
          simp only [expandOffsets, h, Bool.false_eq_true, if_false, List.mem_cons]
          rw [expandOffsets_mem_iff cm middle start fuel (j0 + 1) k]
          constructor
          · rintro (h0 | ⟨h1, h2, h3⟩)
            · refine ⟨by omega, by omega, fun i hi1 hi2 => ?_⟩
              have hij : i = j0 := by omega
              exact hij ▸ h
            · refine ⟨by omega, by omega, fun i hi1 hi2 => ?_⟩
              by_cases hij : i = j0
              · exact hij ▸ h
              · exact h3 i (by omega) hi2
          · rintro ⟨h1, h2, h3⟩
            by_cases hk : k = j0
            · exact Or.inl hk
            · exact Or.inr ⟨by omega, by omega, fun i hi1 hi2 => h3 i (by omega) hi2⟩

theorem floor_intCast_add_one_half (k : ℤ) : ⌊(k : ℚ) + 1 / 2⌋ = k := by
  rw [Int.floor_int_add]
  norm_num

theorem ceil_intCast_add_one_half (k : ℤ) : ⌈(k : ℚ) + 1 / 2⌉ = k + 1 := by
  rw [add_comm, Int.ceil_add_int]
  have h : ⌈(1 / 2 : ℚ)⌉ = 1 := by
    rw [Int.ceil_eq_iff]
    norm_num
  rw [h]
  exact add_comm 1 k

/-- JavaScript `Math.round` of a half-integer argument rounds up: the
rounded half of an integer is its half rounded toward positive
infinity. -/
theorem jsRound_half_ceil (n : ℤ) : jsRound ((n : ℚ) / 2) = ⌈(n : ℚ) / 2⌉ := by
  unfold jsRound
  rcases Int.even_or_odd n with ⟨k, hk⟩ | ⟨k, hk⟩
  · subst hk
    have h1 : ((k + k : ℤ) : ℚ) / 2 = (k : ℚ) := by push_cast; ring
    rw [h1, Int.ceil_intCast, floor_intCast_add_one_half k]
  · subst hk
    have h1 : ((2 * k + 1 : ℤ) : ℚ) / 2 + 1 / 2 = ((k + 1 : ℤ) : ℚ) := by push_cast; ring
    have h2 : ((2 * k + 1 : ℤ) : ℚ) / 2 = (k : ℚ) + 1 / 2 := by push_cast; ring
    rw [h1, Int.floor_intCast, h2, ceil_intCast_add_one_half k]

/-! ## Claims -/

/-- C1 (amended).  `consolidate` does not walk every adjacent pair: the
loop index advances by two, so only the checked pairs
`(sorted[2k], sorted[2k+1])` are compared, and the running group is
closed exactly when the Delta E of such a checked pair exceeds the
threshold.  The returned set holds exactly one representative — a member
of the group — for every CLOSED group; the closed groups cover only a
prefix of the sorted list and the final, still-open group (non-empty
whenever the sorted input is non-empty) contributes no representative,
so not every input candidate belongs to a group that contributes one. -/
theorem consolidate_closed_group_representatives (cm : ColorMath)
    (sortFn : List Color → List Color) (arr ref : List Color) (t : ℚ)
    (hne : sortFn arr ≠ []) :
    consolidate cm sortFn arr ref t =
        ((groupColors cm t [] (sortFn arr)).1).map (representative cm ref) ∧
    (∀ c ∈ consolidate cm sortFn arr ref t, c ∈ sortFn arr) ∧
    ((groupColors cm t [] (sortFn arr)).1).flatten ++
        (groupColors cm t [] (sortFn arr)).2 = sortFn arr ∧
    (groupColors cm t [] (sortFn arr)).2 ≠ [] := by
  have hflat := groupColors_flatten cm t (sortFn arr) []
  rw [List.nil_append] at hflat
  refine ⟨rfl, ?_, hflat, ?_⟩
  · intro c hc
    rcases List.mem_map.mp hc with ⟨g, hg, hrep⟩
    have hgne : g ≠ [] := groupColors_groups_ne_nil cm t _ [] g hg
    have hmem : c ∈ g := hrep ▸ representative_mem cm ref hgne
    have hin : c ∈ ((groupColors cm t [] (sortFn arr)).1).flatten :=
      List.mem_flatten.mpr ⟨g, hg, hmem⟩
    rw [← hflat]
    exact List.mem_append_left _ hin
  · intro h2
    rcases groupColors_open_eq_nil cm t (sortFn arr) [] h2 with ⟨_, h4⟩
    exact hne h4

theorem consolidate_closed_group_representatives_witness :
    consolidate cmAbs sortByRgb [Color.mk 0] [Color.mk 0] 5 =
        ((groupColors cmAbs 5 [] (sortByRgb [Color.mk 0])).1).map
          (representative cmAbs [Color.mk 0]) ∧
    (∀ c ∈ consolidate cmAbs sortByRgb [Color.mk 0] [Color.mk 0] 5,
        c ∈ sortByRgb [Color.mk 0]) ∧
    ((groupColors cmAbs 5 [] (sortByRgb [Color.mk 0])).1).flatten ++
        (groupColors cmAbs 5 [] (sortByRgb [Color.mk 0])).2 = sortByRgb [Color.mk 0] ∧
    (groupColors cmAbs 5 [] (sortByRgb [Color.mk 0])).2 ≠ [] :=
  consolidate_closed_group_representatives cmAbs sortByRgb [Color.mk 0] [Color.mk 0] 5
    (by decide)

/-- C1 counterexample.  On the already-ascending candidate list with RGB
numbers `[0, 1, 100]`, threshold 5 and the `cmAbs` adapter, the pair
`(1, 100)` exceeds the threshold while `(0, 1)` does not, so the claim's
adjacent-pair walk would close the group `[0, 1]` and also represent the
final open group `[100]` — a non-empty result.  The program checks only
the even-indexed pair `(0, 1)`, never closes a group, and returns the
empty list. -/
theorem consolidate_drops_open_group_cex :
    consolidate cmAbs sortByRgb [Color.mk 0, Color.mk 1, Color.mk 100] [Color.mk 0] 5 = [] ∧
    5 < cmAbs.deltaE (Color.mk 1) (Color.mk 100) ∧
    ¬(5 < cmAbs.deltaE (Color.mk 0) (Color.mk 1)) := by decide

/-- C2 (amended).  Consolidating an already-consolidated list (all
pairwise Delta E values above the threshold, already in sort order)
against any reference with the same threshold does NOT return the set
unchanged: every checked pair exceeds the threshold, so the closed
groups are `[a0], [a1, a2], [a3, a4], …` and the trailing open group is
dropped, leaving exactly `⌊n / 2⌋` representatives.  The set is returned
unchanged only when it is empty. -/
theorem consolidate_already_consolidated_length (cm : ColorMath)
    (sortFn : List Color → List Color) (l ref : List Color) (t : ℚ)
    (hp : l.Pairwise fun a b => t < cm.deltaE a b) (hs : sortFn l = l) :
    (consolidate cm sortFn l ref t).length = l.length / 2 := by
  unfold consolidate
  rw [hs, List.length_map]
  exact groupColors_length_pairwise cm t l [] hp

theorem consolidate_already_consolidated_length_witness :
    (consolidate cmAbs sortByRgb [Color.mk 0, Color.mk 100] [Color.mk 0] 5).length =
      [Color.mk 0, Color.mk 100].length / 2 :=
  consolidate_already_consolidated_length cmAbs sortByRgb [Color.mk 0, Color.mk 100]
    [Color.mk 0] 5 (by decide) (by decide)

/-- C2 counterexample.  The singleton `[⟨7⟩]` is already consolidated
(one representative, all pairwise deltas above the threshold vacuously);
consolidating it against the same reference `[⟨7⟩]` with the same
threshold returns the empty list, not the set unchanged: the single
color stays in the never-closed open group and is dropped. -/
theorem consolidate_not_idempotent_cex :
    consolidate cmAbs sortByRgb [Color.mk 7] [Color.mk 7] 5 = [] ∧
    ([] : List Color) ≠ [Color.mk 7] := by decide

/-- C3 (amended).  `analyze` returns the constructed color exactly when
all five checks pass with STRICT inequalities — `between` compares with
`>` and `<`, so the acceptance bands are the open intervals
`(3, 21)`, `(minWhiteDeltaE, 100)`, `(minBlackDeltaE, 100)`,
`(minLuma, maxLuma)` — and returns the absence value `none` otherwise
(it is a total function, never an error).  A boundary value such as a
contrast ratio of exactly 3 or exactly 21 is rejected, not accepted. -/
theorem analyze_strict_bands (cm : ColorMath) (st : Stats) (rgbNumber : ℤ) :
    analyze cm st rgbNumber =
      if 3 < cm.contrast ⟨rgbNumber⟩ whiteColor ∧ cm.contrast ⟨rgbNumber⟩ whiteColor < 21 ∧
          3 < cm.contrast ⟨rgbNumber⟩ blackColor ∧ cm.contrast ⟨rgbNumber⟩ blackColor < 21 ∧
          st.refMinWhiteDeltaE < cm.deltaE ⟨rgbNumber⟩ whiteColor ∧
          cm.deltaE ⟨rgbNumber⟩ whiteColor < 100 ∧
          st.refMinBlackDeltaE < cm.deltaE ⟨rgbNumber⟩ blackColor ∧
          cm.deltaE ⟨rgbNumber⟩ blackColor < 100 ∧
          st.refMinLuma < cm.luma ⟨rgbNumber⟩ ∧ cm.luma ⟨rgbNumber⟩ < st.refMaxLuma then
        some ⟨rgbNumber⟩
      else none := by
  have hbf : ∀ v lo hi : ℚ, ((!between v lo hi none) = true) = ¬(lo < v ∧ v < hi) := by
    intro v lo hi
    rw [eq_iff_iff]
    constructor
    · rintro hb ⟨h1, h2⟩
      simp [between, h1, h2] at hb
    · intro hn
      by_cases h1 : lo < v
      · by_cases h2 : v < hi
        · exact absurd ⟨h1, h2⟩ hn
        · simp [between, h2]
      · simp [between, h1]
  simp only [analyze, hbf]
  split_ifs <;> first | rfl | tauto

/-- C3 counterexample.  Under the `cmBoundary` adapter the contrast
ratio against white is exactly 3 and every other measure sits strictly
inside its band of `stBoundary`.  The claim's closed-interval reading
accepts the color, but the program's strict `between` rejects the
boundary value and `analyze` returns `none`. -/
theorem analyze_boundary_contrast_cex :
    analyzeClosed cmBoundary stBoundary 7 = some (Color.mk 7) ∧
    analyze cmBoundary stBoundary 7 = none := by decide

/-- C4 (amended).  The statistics pass skips any base color whose hex
code is `#000000` or `#ffffff` when updating the running extrema: each
statistic is the fold of `min` (respectively `max`) from its initial
value (100 for the two Delta E minima, 255 for the luma minimum, 0 for
the luma maximum) over the measures of the REMAINING base colors only —
not the extremum over all base colors in the list. -/
theorem stats_skip_black_and_white (cm : ColorMath) (l : List Color) :
    refMinBlackDeltaE cm l =
      ((l.filter fun c => !isBlackOrWhiteHex c).map fun c =>
        cm.deltaE c blackColor).foldl min 100 ∧
    refMinWhiteDeltaE cm l =
      ((l.filter fun c => !isBlackOrWhiteHex c).map fun c =>
        cm.deltaE c whiteColor).foldl min 100 ∧
    refMinLuma cm l =
      ((l.filter fun c => !isBlackOrWhiteHex c).map cm.luma).foldl min 255 ∧
    refMaxLuma cm l =
      ((l.filter fun c => !isBlackOrWhiteHex c).map cm.luma).foldl max 0 :=
  ⟨runningMin_eq_foldl _ l 100, runningMin_eq_foldl _ l 100,
   runningMin_eq_foldl _ l 255, runningMax_eq_foldl _ l 0⟩

/-- C4 counterexample.  For the base-color list `[#000000]` under the
`cmAbs` adapter, the Delta E of the single base color to black is 0, so
the minimum of the metric over all base colors is 0; the program's
running minimum skips the black color and stays at its initial value
100. -/
theorem stats_exclude_black_cex :
    refMinBlackDeltaE cmAbs [blackColor] = 100 ∧
    listMin ([blackColor].map fun c => cmAbs.deltaE c blackColor) = 0 := by decide

/-- C5 (amended).  The Round-1 sampled midpoint is
`start + Math.round((end - start) / 2)`, and for an integer gap
JavaScript's `Math.round` of its half rounds halves UP: the midpoint is
`start + ceil((end - start) / 2)`, not `start + floor((end - start) / 2)`
(the two differ exactly when `end - start` is odd). -/
theorem round1_midpoint_rounds_up (start e : Color) :
    middleFor start e = start.rgb + ⌈((e.rgb - start.rgb : ℤ) : ℚ) / 2⌉ := by
  unfold middleFor samplesFor
  rw [jsRound_half_ceil]

/-- C5 counterexample.  For the adjacent pair with RGB numbers 0 and 3,
the claim's midpoint `start + floor((end - start) / 2)` is 1, but the
program computes `0 + Math.round(1.5) = 2`. -/
theorem round1_midpoint_cex :
    middleFor (Color.mk 0) (Color.mk 3) = 2 ∧
    claimMidpoint (Color.mk 0) (Color.mk 3) = 1 := by
  constructor
  · norm_num [middleFor, samplesFor, jsRound]
  · norm_num [claimMidpoint]

/-- C6.  In the Round-1 expansion around a pair's midpoint, an offset
`j` is reached (and then both `middle + j` and `middle - j` are
analyzed, in that order) exactly when `j` is below the loop bound
`samples` and no offset `i ≤ j` — the stop condition is checked at the
top of the iteration, before either sample of that offset is analyzed —
put `middle - i` within Delta E < 2 of `start`.  The characterization
involves no condition on the distance of `middle + j` to `end`: the
upward side is bounded only by the loop limit. -/
theorem round1_expansion_stop (cm : ColorMath) (start e : Color) :
    pairSamples cm start e =
      middleFor start e ::
        (expandOffsets cm (middleFor start e) start 1
            (samplesFor start e - 1).toNat).flatMap
          (fun j => [middleFor start e + (j : ℤ), middleFor start e - (j : ℤ)]) ∧
    ∀ k : ℕ,
      k ∈ expandOffsets cm (middleFor start e) start 1 (samplesFor start e - 1).toNat ↔
        (1 ≤ k ∧ (k : ℤ) < samplesFor start e ∧
          ∀ i : ℕ, 1 ≤ i → i ≤ k →
            ¬(cm.deltaE ⟨middleFor start e - (i : ℤ)⟩ start < 2)) := by
  refine ⟨rfl, fun k => ?_⟩
  rw [expandOffsets_mem_iff]
  constructor
  · rintro ⟨h1, h2, h3⟩
    refine ⟨h1, by omega, fun i hi1 hi2 => ?_⟩
    have hf := h3 i hi1 hi2
    simpa [tooClose] using hf
  · rintro ⟨h1, h2, h3⟩
    refine ⟨h1, by omega, fun i hi1 hi2 => ?_⟩
    simpa [tooClose] using h3 i hi1 hi2

/-- C8.  `adjustDelta` is exactly the spec's nearest-neighbour median —
the median over the source colors of the minimum Delta E from each
source color to the reference set — and on the equal singleton lists
`[c]`, `[c]` it returns 0 whenever the adapter's self-distance of `c` is
0 (the Delta E 2000 of a color with itself). -/
theorem adjustDelta_nearest_neighbor (cm : ColorMath) (c : Color)
    (h : cm.deltaE c c = 0) :
    adjustDelta cm [c] [c] = 0 ∧
    ∀ source ref : List Color,
      adjustDelta cm source ref = nearestNeighborMedian cm source ref := by
  refine ⟨?_, fun source ref => rfl⟩
  simp [adjustDelta, listMin, h, median, sortQ, insertLe]

theorem adjustDelta_nearest_neighbor_witness :
    adjustDelta cmAbs [Color.mk 7] [Color.mk 7] = 0 ∧
    ∀ source ref : List Color,
      adjustDelta cmAbs source ref = nearestNeighborMedian cmAbs source ref :=
  adjustDelta_nearest_neighbor cmAbs (Color.mk 7) (by decide)

/-- C9.  Cache round-trip: when no artifact for `id` exists, `memoize`
computes the candidate set, persists it, and returns it; re-running
`memoize` with the same `id` and ANY compute function (the result does
not depend on it, so the compute function is never consulted) returns
colors whose hex codes are identical to the originals, in the same
order, and leaves the store unchanged.  The hypotheses are the §6
contract of the external serialization: each persisted entry's `color`
field is the color's hex code, and rebuilding a persisted color from its
hex code preserves the hex code. -/
theorem memoize_roundtrip (lib : SpectraLib) (fs : FileStore) (id : String)
    (l : List Color)
    (hser : ∀ c, (lib.serialize c).color = lib.hex c)
    (hrt : ∀ c ∈ l, lib.hex (lib.ofString (lib.hex c)) = lib.hex c)
    (hmiss : List.lookup (cachePath id) fs = none) :
    (memoize lib fs id fun _ => l).1 = l ∧
    ∀ g : Unit → List Color,
      (memoize lib (memoize lib fs id fun _ => l).2 id g).1.map lib.hex =
          l.map lib.hex ∧
      (memoize lib (memoize lib fs id fun _ => l).2 id g).2 =
          (memoize lib fs id fun _ => l).2 := by
  have h1 : memoize lib fs id (fun _ => l) =
      (l, (cachePath id, l.map lib.serialize) :: fs) := by
    simp [memoize, hmiss]
  refine ⟨by rw [h1], fun g => ?_⟩
  rw [h1]
  have h2 : List.lookup (cachePath id) ((cachePath id, l.map lib.serialize) :: fs) =
      some (l.map lib.serialize) := by
    simp [List.lookup]
  constructor
  · simp only [memoize, h2, List.map_map]
    refine List.map_congr_left fun c hc => ?_
    simp only [Function.comp_apply, hser, hrt c hc]
  · simp only [memoize, h2]

theorem memoize_roundtrip_witness :
    (memoize lib0 [] "base-colors-first" fun _ => [Color.mk 3]).1 = [Color.mk 3] ∧
    ∀ g : Unit → List Color,
      (memoize lib0 (memoize lib0 [] "base-colors-first" fun _ => [Color.mk 3]).2
          "base-colors-first" g).1.map lib0.hex = [Color.mk 3].map lib0.hex ∧
      (memoize lib0 (memoize lib0 [] "base-colors-first" fun _ => [Color.mk 3]).2
          "base-colors-first" g).2 =
        (memoize lib0 [] "base-colors-first" fun _ => [Color.mk 3]).2 :=
  memoize_roundtrip lib0 [] "base-colors-first" [Color.mk 3]
    (fun c => rfl) (by decide) rfl

/-- C10.  A zero adaptive threshold makes `hasGoodDeltaAll` fall back to
the global `refDeltaE` (the median of the per-base-color medians of the
base colors' pairwise Delta E): calling the filter with threshold 0 is
the same as calling it with `refDeltaE` itself, and it accepts a color
exactly when every reference color is at least `refDeltaE` away — a zero
threshold never makes the filter accept everything. -/
theorem hasGoodDeltaAll_zero_fallback (cm : ColorMath) (baseColors : List Color)
    (color : Color) (arr : List Color) :
    hasGoodDeltaAll cm (refDeltaEStat cm baseColors) color arr 0 =
      hasGoodDeltaAll cm (refDeltaEStat cm baseColors) color arr
        (refDeltaEStat cm baseColors) ∧
    (hasGoodDeltaAll cm (refDeltaEStat cm baseColors) color arr 0 = true ↔
      ∀ other ∈ arr, ¬(cm.deltaE color other < refDeltaEStat cm baseColors)) := by
  constructor
  · simp [hasGoodDeltaAll]
  · simp [hasGoodDeltaAll]
